import Mathlib

/-!
Verification of the ploop / block-layer specification of the
openvz kernel tree (seyko2/openvz_rhel6_kernel_mirror).

Part I embeds two concrete kernel functions that are present in the
source tree (`block/ioctl.c` and `fs/open.c`) as pure Lean functions
and proves their validation behaviour.

Part II models the ploop core (request translation, BAT lookup,
metadata commit pipeline, crash recovery, delta-stack operations).
The ploop implementation itself is not among the source files of this
tree snapshot (only its `ASSUMPTIONS` documentation file is), so those
definitions are modelled from the specification text, as indicated by
their doc comments.

Machine integers are modelled as `Nat` / `Int`; where the kernel code
performs 64-bit two's-complement arithmetic that can wrap, the wrap is
made explicit (`loffWrap`).
-/

namespace BlockIoctl

/-- Embeds `blk_ioctl_discard` from `block/ioctl.c` (lines 181-194).
`bdevSize` stands for `i_size_read(bdev->bd_inode)` in bytes, `start`
and `len` are the `uint64_t` arguments.  The C code tests
`start & 511` and `len & 511` (that is, `start % 512`, `len % 512`),
shifts both right by 9 (division by 512), and compares
`start + len > (i_size_read(bdev->bd_inode) >> 9)`.  The values fit in
64 bits throughout (after the shift each summand is below `2 ^ 55`),
so plain `Nat` arithmetic is exact.  `.ok (s, n)` means
`blkdev_issue_discard(bdev, s, n, GFP_KERNEL, 0)` was called, i.e. a
discard for sectors `[s, s + n)` was issued; `.error e` means errno
`e` was returned with no discard issued. -/
def blk_ioctl_discard (bdevSize start len : Nat) : Except Int (Nat × Nat) :=
  if start % 512 ≠ 0 then .error (-22)
  else if len % 512 ≠ 0 then .error (-22)
  else if start / 512 + len / 512 > bdevSize / 512 then .error (-22)
  else .ok (start / 512, len / 512)

/-- Embeds the `BLKDISCARD` arm of `blkdev_ioctl` from `block/ioctl.c`
(lines 293-303): after the `FMODE_WRITE` and `copy_from_user` checks
the request is forwarded verbatim to `blk_ioctl_discard` with
`range[0]`, `range[1]`. -/
def blkdev_ioctl_discard (modeWrite : Bool) (bdevSize start len : Nat) :
    Except Int (Nat × Nat) :=
  if ¬ modeWrite then .error (-9)
  else blk_ioctl_discard bdevSize start len

end BlockIoctl

namespace FsOpen

/-- FALLOC_FL_KEEP_SIZE (0x01). -/
def FALLOC_FL_KEEP_SIZE : Nat := 1

/-- FALLOC_FL_PUNCH_HOLE (0x02). -/
def FALLOC_FL_PUNCH_HOLE : Nat := 2

/-- The parts of `struct file` / `struct inode` that `do_fallocate`
(`fs/open.c`, lines 234-290) reads.  `security_ret` is the value
returned by `security_file_permission(file, MAY_WRITE)`;
`fallocate_ret` is the value the filesystem's
`inode->i_op->fallocate` would return if invoked, and
`has_fallocate` whether that operation is non-NULL. -/
structure File where
  f_mode_write : Bool
  i_append : Bool
  i_immutable : Bool
  security_ret : Int
  is_fifo : Bool
  is_reg : Bool
  is_dir : Bool
  s_maxbytes : Int
  has_fallocate : Bool
  fallocate_ret : Int

/-- Two's-complement wrap of a 64-bit signed (`loff_t`) value: the
kernel computes `offset + len` in `loff_t` and explicitly tests for
"wrap through zero", so the sum is modelled modulo `2 ^ 64` into
`[-2 ^ 63, 2 ^ 63)`. -/
def loffWrap (x : Int) : Int := (x + 2 ^ 63) % 2 ^ 64 - 2 ^ 63

/-- Embeds `do_fallocate` from `fs/open.c` (lines 234-290) check for
check, in source order.  The result is `(return value, invoked)`
where `invoked` records whether `inode->i_op->fallocate` was called
(the only state-changing step of the function).  For a non-negative
`mode` the C test `mode & ~(FALLOC_FL_KEEP_SIZE | FALLOC_FL_PUNCH_HOLE)`
is non-zero exactly when `mode` has a bit above bit 1, i.e. when
`mode >>> 2 ≠ 0`. -/
def do_fallocate (file : File) (mode : Nat) (offset len : Int) : Int × Bool :=
  if offset < 0 ∨ len ≤ 0 then (-22, false)
  else if mode >>> 2 ≠ 0 then (-95, false)
  else if mode &&& FALLOC_FL_PUNCH_HOLE ≠ 0 ∧ mode &&& FALLOC_FL_KEEP_SIZE = 0 then
    (-95, false)
  else if ¬ file.f_mode_write then (-9, false)
  else if mode &&& FALLOC_FL_PUNCH_HOLE ≠ 0 ∧ file.i_append then (-1, false)
  else if file.i_immutable then (-1, false)
  else if file.security_ret ≠ 0 then (file.security_ret, false)
  else if file.is_fifo then (-29, false)
  else if ¬ file.is_reg ∧ ¬ file.is_dir then (-19, false)
  else if loffWrap (offset + len) > file.s_maxbytes ∨ loffWrap (offset + len) < 0 then
    (-27, false)
  else if ¬ file.has_fallocate then (-95, false)
  else (file.fallocate_ret, true)

/-- The checks of `do_fallocate` that sit between the initial
`offset < 0 || len <= 0` test and the `s_maxbytes` range test, in
source order: mode validity, punch-hole implies keep-size, write
permission, append/immutable restrictions, security hook, FIFO and
file-type checks. -/
def fallocate_prechecks (file : File) (mode : Nat) : Prop :=
  mode >>> 2 = 0 ∧
  ¬(mode &&& FALLOC_FL_PUNCH_HOLE ≠ 0 ∧ mode &&& FALLOC_FL_KEEP_SIZE = 0) ∧
  file.f_mode_write = true ∧
  ¬(mode &&& FALLOC_FL_PUNCH_HOLE ≠ 0 ∧ file.i_append = true) ∧
  file.i_immutable = false ∧
  file.security_ret = 0 ∧
  file.is_fifo = false ∧
  (file.is_reg = true ∨ file.is_dir = true)

instance (file : File) (mode : Nat) : Decidable (fallocate_prechecks file mode) := by
  unfold fallocate_prechecks; infer_instance

/-- A file open without `FMODE_WRITE` on a filesystem with
`s_maxbytes = 1000`; all other fields permissive. -/
def c10file : File :=
  { f_mode_write := false, i_append := false, i_immutable := false,
    security_ret := 0, is_fifo := false, is_reg := true, is_dir := false,
    s_maxbytes := 1000, has_fallocate := true, fallocate_ret := 0 }

end FsOpen

namespace Ploop

/-! The ploop core itself is not among the source files of this tree
snapshot (only `drivers/block/ploop/ASSUMPTIONS` is), so this model is
built from the specification text; every definition's doc comment
names the part of the spec it comes from. -/

/-- Modelled from the spec: the error codes the ploop core presents
upward (spec section 6); the ploop sources are absent from this tree. -/
inductive PloopErr
  | InvalidAlignment
  | OutOfRange
  | OutOfSpace
  | MetadataBackpressure
  | BackingIoError
  | StackBusy
  | CorruptHeader
  | UnsupportedVersion
  | IncompatibleClusterSize
  | StackChanging
deriving DecidableEq

/-- Modelled from the spec (section 3): the part of one delta that the
mapper reads: its BAT, an array of u32 entries where value 0 means
"hole", and the contents of each physical data cluster; the ploop
sources are absent from this tree. -/
structure Delta where
  bat : List Nat
  data : Nat → List Nat

/-- Modelled from the spec: the BAT entry of delta `d` for logical
cluster `L`; clusters beyond the BAT length are holes. -/
def batEntry (d : Delta) (L : Nat) : Nat := d.bat.getD L 0

/-- Modelled from the spec (sections 3 and 4.3): `lookup` walks the
deltas top-down and returns the first layer whose BAT entry for the
requested logical cluster is non-hole, together with the physical
cluster.  The stack list is ordered top-first, `[dₙ, …, d₁, base]`,
so walking the list is exactly the spec's walk `dₙ → dₙ₋₁ → … → base`;
the ploop sources are absent from this tree. -/
def lookup : List Delta → Nat → Option (Delta × Nat)
  | [], _ => none
  | d :: rest, L =>
      if batEntry d L ≠ 0 then some (d, batEntry d L) else lookup rest L

/-- Modelled from the spec: a read of logical cluster `L` through the
stack: the layer found by `lookup` supplies the data of its physical
cluster; if no layer maps `L` the cluster reads as `cb` zero bytes. -/
def readCluster (stack : List Delta) (cb L : Nat) : List Nat :=
  match lookup stack L with
  | none => List.replicate cb 0
  | some (d, p) => d.data p

/-- Modelled from the spec (section 3): the delta roles. -/
inductive Role
  | rawBase
  | imageBase
  | imageDelta
deriving DecidableEq

/-- Modelled from the spec (section 3): the layer attributes that
block-size negotiation reads: the role and `cluster_shift`
(log2 of the cluster size in sectors). -/
structure Layer where
  role : Role
  cluster_shift : Nat
deriving DecidableEq

/-- Modelled from the spec (section 3 and the ASSUMPTIONS file):
adding a delta on top of the stack (top-first list).  A delta whose
cluster size differs from the top's is rejected with
`IncompatibleClusterSize`: a larger cluster is forbidden outright, a
smaller one would require re-quantisation, which this core does not
support; the ploop sources are absent from this tree. -/
def addDelta (s : List Layer) (d : Layer) : Except PloopErr (List Layer) :=
  match s with
  | [] => .error .StackBusy
  | top :: _ =>
      if d.cluster_shift ≠ top.cluster_shift then
        .error .IncompatibleClusterSize
      else
        .ok (d :: s)

/-- Modelled from the spec: the stacks reachable from a one-layer base
whose cluster shift is `c` by successful `addDelta` calls.  A raw base
"behaves as if it had infinite block size and is assigned the stack's
cluster size", so both base roles start with shift `c`. -/
inductive StackOk (c : Nat) : List Layer → Prop
  | base_image : StackOk c [⟨Role.imageBase, c⟩]
  | base_raw : StackOk c [⟨Role.rawBase, c⟩]
  | add (s : List Layer) (d : Layer) (t : List Layer) :
      StackOk c s → addDelta s d = .ok t → StackOk c t

/-- Modelled from the spec (section 4.1): an incoming logical request;
offsets and lengths are carried in bytes here so that the sector
alignment requirement is expressible. -/
structure Request where
  offsetBytes : Nat
  lenBytes : Nat
  isWrite : Bool

/-- Modelled from the spec (sections 4.1 and 7): the state the request
translator reads and mutates: the delta stack (with its BATs and
data), the virtual size, the cluster size, and the set of logical
clusters that currently have a cluster slot. -/
structure EngineState where
  stack : List Delta
  virtualSizeSectors : Nat
  clusterSectors : Nat
  slots : List Nat

/-- Modelled from the spec (section 4.1): the logical clusters a
request touches. -/
def clustersOf (s : EngineState) (r : Request) : List Nat :=
  if r.lenBytes = 0 then []
  else
    let cb := s.clusterSectors * 512
    let first := r.offsetBytes / cb
    let last := (r.offsetBytes + r.lenBytes - 1) / cb
    (List.range (last + 1 - first)).map (first + ·)

/-- Modelled from the spec (sections 4.1 and 7): `submit` validates the
request synchronously — `OutOfRange` if it extends beyond the virtual
size, `InvalidAlignment` if offset or length is not sector-aligned —
and only then splits it into per-cluster sub-requests and acquires the
cluster slots (the state change).  The result pairs the possibly
updated state with the outcome, so a caller error returns the state
unchanged; the ploop sources are absent from this tree. -/
def submit (s : EngineState) (r : Request) :
    EngineState × Except PloopErr (List Nat) :=
  if r.offsetBytes + r.lenBytes > s.virtualSizeSectors * 512 then
    (s, .error .OutOfRange)
  else if r.offsetBytes % 512 ≠ 0 ∨ r.lenBytes % 512 ≠ 0 then
    (s, .error .InvalidAlignment)
  else
    let subs := clustersOf s r
    ({ s with slots := subs ++ s.slots }, .ok subs)

/-- Modelled from the spec (sections 4.1 and 4.7): the parent request
state: pending-count and error accumulator (0 = success); when the
count reaches zero the caller's completion is invoked with the
accumulated error (`callerDone = some e`).  The ploop sources are
absent from this tree. -/
structure Parent where
  pending : Nat
  err : Nat
  callerDone : Option Nat
deriving DecidableEq

/-- Modelled from the spec (section 4.7): a sub-request completion with
result `e` decrements the parent's pending-count, accumulates the
first non-success error, and invokes the caller's completion when the
count reaches zero. -/
def subComplete (p : Parent) (e : Nat) : Parent :=
  let err := if p.err = 0 then e else p.err
  let pending := p.pending - 1
  { pending := pending, err := err,
    callerDone := if pending = 0 then some err else p.callerDone }

/-- Modelled from the spec (section 4.1): a parent freshly split into
`n` per-cluster sub-requests: pending-count `n`, no error, caller not
yet notified. -/
def mkParent (n : Nat) : Parent := ⟨n, 0, none⟩

/-- Deliver the sub-request results `es` to parent `p` in arrival
order. -/
def runSubs : Parent → List Nat → Parent
  | p, [] => p
  | p, e :: es => runSubs (subComplete p e) es

/-- First non-success result in arrival order, starting from
accumulator `a` (0 = success). -/
def accumErr : Nat → List Nat → Nat
  | a, [] => a
  | a, e :: es => accumErr (if a = 0 then e else a) es

/-- Modelled from the spec (section 4.4 and section 8 property 5): the
generation bookkeeping of the metadata pipeline: `nextGen` is the
generation the next commit transaction will be assigned, `hdrGen` the
generation durably stored in the delta header.  The ploop sources are
absent from this tree. -/
structure GenState where
  nextGen : Nat
  hdrGen : Nat
deriving DecidableEq

/-- Modelled from the spec: the pipeline events relevant to the
generation counter: a commit transaction (assigned generation
`nextGen`, persisted into the header at step 4 of the commit
sequence), a clean close (drains and flushes, assigns nothing), and a
re-open (reads the header, changes nothing). -/
inductive GenOp
  | commit
  | cleanClose
  | reopen
deriving DecidableEq

/-- Modelled from the spec (section 4.4): one pipeline event acting on
the generation bookkeeping. -/
def genStep (s : GenState) : GenOp → GenState
  | .commit => { nextGen := s.nextGen + 1, hdrGen := s.nextGen }
  | .cleanClose => s
  | .reopen => s

/-- Run a sequence of pipeline events. -/
def genRun (s : GenState) : List GenOp → GenState
  | [] => s
  | op :: ops => genRun (genStep s op) ops

/-- The generations assigned to the commit transactions of a run, in
order. -/
def assignedGens (s : GenState) : List GenOp → List Nat
  | [] => []
  | .commit :: ops => s.nextGen :: assignedGens (genStep s .commit) ops
  | .cleanClose :: ops => assignedGens (genStep s .cleanClose) ops
  | .reopen :: ops => assignedGens (genStep s .reopen) ops

/-- The header generations observed at the re-open events of a run, in
order. -/
def observedGens (s : GenState) : List GenOp → List Nat
  | [] => []
  | .reopen :: ops => s.hdrGen :: observedGens (genStep s .reopen) ops
  | .commit :: ops => observedGens (genStep s .commit) ops
  | .cleanClose :: ops => observedGens (genStep s .cleanClose) ops

/-- Modelled from the spec (sections 4.4 and 6): an on-disk BAT page:
the embedded per-page generation and the page's entries (value 0 =
hole).  The ploop sources are absent from this tree. -/
structure BatPage where
  gen : Nat
  entries : List Nat
deriving DecidableEq

/-- Modelled from the spec (section 6): the persistent metadata of one
delta: the header's `generation` field and the BAT pages. -/
structure DiskDelta where
  hdrGen : Nat
  pages : List BatPage
deriving DecidableEq

/-- Modelled from the spec (sections 4.4 and 6): recovery of one BAT
page: a page whose embedded generation exceeds the header's generation
is treated as all-hole; any other page is taken as stored. -/
def recoverPage (hgen : Nat) (p : BatPage) : BatPage :=
  if hgen < p.gen then
    { gen := p.gen, entries := List.replicate p.entries.length 0 }
  else p

/-- Modelled from the spec: crash recovery applied to a whole delta. -/
def recover (d : DiskDelta) : DiskDelta :=
  { d with pages := d.pages.map (recoverPage d.hdrGen) }

/-- The BAT entry observed for logical cluster `L` after recovery, with
`epp` BAT entries per page; missing pages and out-of-range slots read
as hole (0). -/
def observed (epp : Nat) (d : DiskDelta) (L : Nat) : Nat :=
  (((recover d).pages.get? (L / epp)).getD ⟨0, []⟩).entries.getD (L % epp) 0

/-- Modelled from the spec (section 4.4, commit steps 1-2): writing the
dirty pages of a commit transaction with generation `G`: each dirty
page `(i, es)` is stored at page index `i` with embedded generation
`G`. -/
def writePages (pages : List BatPage) (G : Nat)
    (dirty : List (Nat × List Nat)) : List BatPage :=
  dirty.foldl (fun ps d => ps.set d.1 ⟨G, d.2⟩) pages

/-- Modelled from the spec (section 4.4): an unclean shutdown during
the commit of generation `G`: an arbitrary subset `sub` of the
transaction's dirty pages reached the disk while the header still
carries the old generation. -/
def commitCrash (d : DiskDelta) (G : Nat)
    (sub : List (Nat × List Nat)) : DiskDelta :=
  { d with pages := writePages d.pages G sub }

/-- A committed (well-formed) on-disk delta: every page's embedded
generation is at most the header generation. -/
def WellFormed (d : DiskDelta) : Prop :=
  ∀ p ∈ d.pages, p.gen ≤ d.hdrGen

instance (d : DiskDelta) : Decidable (WellFormed d) := by
  unfold WellFormed
  infer_instance

/-- A committed one-page delta: header generation 1, its single BAT
page written at generation 1 mapping logical cluster 0 to physical
cluster 5. -/
def c1disk : DiskDelta := ⟨1, [⟨1, [5]⟩]⟩

/-- Modelled from the spec (sections 4.2, 4.4 and Scenario E): the
observable progress of a window of writes around one barrier.  Writes
are numbered; those with index below `b` were submitted before the
barrier, those with index at least `b` after it.  `dataD` lists the
writes whose payload reached stable storage, `batD` those whose newly
created BAT mapping was committed with the generation persisted,
`compl` those whose completion was signalled to the caller, and
`barrier` whether the barrier's completion was signalled.  The ploop
sources are absent from this tree. -/
structure BarState where
  dataD : List Nat
  batD : List Nat
  compl : List Nat
  barrier : Bool
deriving DecidableEq

/-- Modelled from the spec: the events of the completion path: data of
write `i` becomes durable, the BAT mapping of write `i` is committed,
the completion of write `i` is signalled, the barrier's completion is
signalled. -/
inductive BarEv
  | data (i : Nat)
  | bat (i : Nat)
  | complete (i : Nat)
  | barrierDone
deriving DecidableEq

/-- The initial state: nothing durable, nothing completed. -/
def barInit : BarState := ⟨[], [], [], false⟩

/-- Modelled from the spec: one event.  A write's completion may be
signalled only once its data is durable and, when it created a new BAT
mapping (`needsBat`), that mapping is committed (section 4.2 ordering
guarantee), and — for writes submitted after the barrier — only once
the barrier has completed (section 4.1 barrier semantics, Scenario E).
The barrier's completion may be signalled only once every write
submitted before it has durable data and any new BAT mapping committed
(section 4.4, drain then flush).  An event whose guard fails is
refused (`none`). -/
def barStep (b : Nat) (needsBat : Nat → Bool) (s : BarState) :
    BarEv → Option BarState
  | .data i => some { s with dataD := i :: s.dataD }
  | .bat i => some { s with batD := i :: s.batD }
  | .complete i =>
      if i ∈ s.dataD ∧ (needsBat i = true → i ∈ s.batD) ∧
          (b ≤ i → s.barrier = true) then
        some { s with compl := i :: s.compl }
      else none
  | .barrierDone =>
      if ∀ j < b, j ∈ s.dataD ∧ (needsBat j = true → j ∈ s.batD) then
        some { s with barrier := true }
      else none

/-- Run a sequence of completion-path events. -/
def barRun (b : Nat) (nb : Nat → Bool) :
    BarState → List BarEv → Option BarState
  | s, [] => some s
  | s, e :: t =>
      match barStep b nb s e with
      | none => none
      | some s2 => barRun b nb s2 t

/-- The ordering invariant of the completion path: every signalled
completion had durable data and (when needed) a committed BAT mapping,
and was preceded by the barrier's completion if submitted after the
barrier; the barrier's completion implies all pre-barrier writes were
fully durable. -/
def BarInv (b : Nat) (nb : Nat → Bool) (s : BarState) : Prop :=
  (∀ i ∈ s.compl, i ∈ s.dataD ∧ (nb i = true → i ∈ s.batD) ∧
    (b ≤ i → s.barrier = true)) ∧
  (s.barrier = true → ∀ j < b, j ∈ s.dataD ∧ (nb j = true → j ∈ s.batD))

/-- Modelled from the spec (sections 3, 4.5, 4.6 and 6): the per-delta
allocation state that the BAT invariant concerns: `batClusters` — the
number of physical clusters occupied by the BAT region (the header
occupies physical cluster 0 and data starts at `1 + batClusters`);
`allocated` — the number of data clusters allocated so far; `bat` —
the mapping, `none` meaning hole (stored on disk as the reserved entry
value 0).  The ploop sources are absent from this tree. -/
structure DeltaMeta where
  batClusters : Nat
  allocated : Nat
  bat : List (Option Nat)
deriving DecidableEq

/-- The physical index of the first data cluster (section 6: the
header occupies cluster 0, the BAT region the following clusters). -/
def firstDataCluster (d : DeltaMeta) : Nat := 1 + d.batClusters

/-- Modelled from the spec (section 3, allocate-tail): the next tail
cluster of a delta: new physical clusters come only from the end of
the file. -/
def allocTail (d : DeltaMeta) : Nat := firstDataCluster d + d.allocated

/-- On-disk encoding of a BAT entry (section 6): 0 is the reserved
hole sentinel. -/
def encodeEntry : Option Nat → Nat
  | none => 0
  | some p => p

/-- An empty delta with `bc` BAT clusters and `vs` virtual clusters,
all holes. -/
def emptyMeta (bc vs : Nat) : DeltaMeta := ⟨bc, 0, List.replicate vs none⟩

/-- Modelled from the spec (section 4.2, Allocating and CopyingUp):
map logical cluster `L` to a freshly allocated tail cluster. -/
def allocWrite (d : DeltaMeta) (L : Nat) : DeltaMeta :=
  { d with bat := d.bat.set L (some (allocTail d)),
           allocated := d.allocated + 1 }

/-- Modelled from the spec (section 4.6): relocate moves the cluster
of `L` to a fresh tail position (the freed slot becomes reusable tail
space only after the commit is durable). -/
def relocateWrite (d : DeltaMeta) (L : Nat) : DeltaMeta := allocWrite d L

/-- Modelled from the spec (section 4.5, grow virtual): append `n` new
hole entries to the BAT. -/
def growVirtual (d : DeltaMeta) (n : Nat) : DeltaMeta :=
  { d with bat := d.bat ++ List.replicate n none }

/-- Modelled from the spec (section 4.5, merge): merge the upper of
two adjacent deltas into the lower: where both map a cluster, the
lower's position is kept (the upper's data is copied into it); where
only the upper maps it, the physical cluster is granted to the lower
(the lower's BAT is rewritten with it). -/
def mergeInto (lower upper : DeltaMeta) : DeltaMeta :=
  { lower with
    bat := (List.range (max lower.bat.length upper.bat.length)).map fun L =>
      match upper.bat.getD L none with
      | some p =>
          match lower.bat.getD L none with
          | some q => some q
          | none => some p
      | none => lower.bat.getD L none,
    allocated := lower.allocated + upper.allocated }

/-- Modelled from the spec (sections 4.2, 4.5 and 4.6): one mutation
of the delta stack (top-first list): snapshot pushes a fresh empty
top; allocate, copy-up and relocate write a tail mapping into the top;
grow extends the top's BAT with holes; merge folds the top into the
layer below it. -/
inductive MetaStep : List DeltaMeta → List DeltaMeta → Prop
  | snapshot (s : List DeltaMeta) (bc vs : Nat) :
      MetaStep s (emptyMeta bc vs :: s)
  | alloc (top : DeltaMeta) (rest : List DeltaMeta) (L : Nat) :
      MetaStep (top :: rest) (allocWrite top L :: rest)
  | relocate (top : DeltaMeta) (rest : List DeltaMeta) (L : Nat) :
      MetaStep (top :: rest) (relocateWrite top L :: rest)
  | grow (top : DeltaMeta) (rest : List DeltaMeta) (n : Nat) :
      MetaStep (top :: rest) (growVirtual top n :: rest)
  | merge (upper lower : DeltaMeta) (rest : List DeltaMeta) :
      MetaStep (upper :: lower :: rest) (mergeInto lower upper :: rest)

/-- The stacks reachable from a fresh one-delta stack by the
operations above. -/
inductive MetaReach : List DeltaMeta → Prop
  | init (bc vs : Nat) : MetaReach [emptyMeta bc vs]
  | step {s t : List DeltaMeta} : MetaReach s → MetaStep s t → MetaReach t

/-- Every present BAT entry of the delta targets a physical cluster
index of at least 1. -/
def EntryOk (d : DeltaMeta) : Prop :=
  ∀ e ∈ d.bat, ∀ p, e = some p → 1 ≤ p

/-- Every delta of the stack satisfies `EntryOk`. -/
def StackEntriesOk (s : List DeltaMeta) : Prop := ∀ d ∈ s, EntryOk d

end Ploop

/-! ### Theorems -/

/-- Claim C9: for every `start` and `len`, `blk_ioctl_discard` returns
`-EINVAL` without issuing any discard whenever `start` or `len` is not
a multiple of 512 bytes, or when `(start + len) >> 9` extends past the
device size in sectors; a discard is issued to the device exactly when
all three checks pass. -/
theorem blk_ioctl_discard_validation (bdevSize start len : Nat) :
    ((start % 512 ≠ 0 ∨ len % 512 ≠ 0 ∨
        (start + len) / 512 > bdevSize / 512) →
      BlockIoctl.blk_ioctl_discard bdevSize start len = .error (-22)) ∧
    ((∃ d, BlockIoctl.blk_ioctl_discard bdevSize start len = .ok d) ↔
      (start % 512 = 0 ∧ len % 512 = 0 ∧
        (start + len) / 512 ≤ bdevSize / 512)) := by
  rcases Decidable.em (start % 512 = 0) with h1 | h1
  · rcases Decidable.em (len % 512 = 0) with h2 | h2
    · have hd : (start + len) / 512 = start / 512 + len / 512 :=
        Nat.add_div_of_dvd_right (Nat.dvd_of_mod_eq_zero h1)
      rcases Decidable.em (start / 512 + len / 512 > bdevSize / 512) with h3 | h3
      · have hv : BlockIoctl.blk_ioctl_discard bdevSize start len =
            .error (-22) := by
          unfold BlockIoctl.blk_ioctl_discard
          rw [if_neg (not_not_intro h1), if_neg (not_not_intro h2), if_pos h3]
        refine ⟨fun _ => hv, ?_⟩
        rw [hv]
        constructor
        · rintro ⟨d, hd2⟩
          exact absurd hd2 (by simp)
        · rintro ⟨-, -, hc⟩
          rw [hd] at hc
          omega
      · have hv : BlockIoctl.blk_ioctl_discard bdevSize start len =
            .ok (start / 512, len / 512) := by
          unfold BlockIoctl.blk_ioctl_discard
          rw [if_neg (not_not_intro h1), if_neg (not_not_intro h2), if_neg h3]
        refine ⟨fun h => ?_, ?_⟩
        · exfalso
          rcases h with h | h | h
          · exact h h1
          · exact h h2
          · rw [hd] at h
            omega
        · exact ⟨fun _ => ⟨h1, h2, by rw [hd]; omega⟩, fun _ => ⟨_, hv⟩⟩
    · have hv : BlockIoctl.blk_ioctl_discard bdevSize start len =
          .error (-22) := by
        unfold BlockIoctl.blk_ioctl_discard
        rw [if_neg (not_not_intro h1), if_pos h2]
      refine ⟨fun _ => hv, ?_⟩
      rw [hv]
      constructor
      · rintro ⟨d, hd2⟩
        exact absurd hd2 (by simp)
      · rintro ⟨-, hc, -⟩
        exact (h2 hc).elim
  · have hv : BlockIoctl.blk_ioctl_discard bdevSize start len =
        .error (-22) := by
      unfold BlockIoctl.blk_ioctl_discard
      rw [if_pos h1]
    refine ⟨fun _ => hv, ?_⟩
    rw [hv]
    constructor
    · rintro ⟨d, hd2⟩
      exact absurd hd2 (by simp)
    · rintro ⟨hc, -, -⟩
      exact (h1 hc).elim

/-- Closed instance of `blk_ioctl_discard_validation`: a misaligned
start yields `-EINVAL` with no discard, and an aligned in-range
request issues a discard. -/
theorem blk_ioctl_discard_validation_witness :
    BlockIoctl.blk_ioctl_discard 4096 7 512 = .error (-22) ∧
      ∃ d, BlockIoctl.blk_ioctl_discard 4096 512 512 = .ok d :=
  ⟨(blk_ioctl_discard_validation 4096 7 512).1 (Or.inl (by decide)),
   (blk_ioctl_discard_validation 4096 512 512).2.mpr (by decide)⟩

/-- Claim C10, counterexample: `do_fallocate` does not return `-EFBIG`
for every argument tuple with `offset + len > s_maxbytes`.  On a file
opened without write permission the earlier `FMODE_WRITE` check fires
first and the function returns `-EBADF` (= -9), not `-EFBIG` (= -27),
even though `offset + len = 1001 > s_maxbytes = 1000`. -/
theorem do_fallocate_efbig_cex :
    FsOpen.loffWrap (0 + 1001) > FsOpen.c10file.s_maxbytes ∧
    FsOpen.do_fallocate FsOpen.c10file 0 0 1001 = (-9, false) ∧
    (-9 : Int) ≠ -27 := by
  refine ⟨?_, ?_, by decide⟩
  · show (0 + 1001 + 2 ^ 63) % 2 ^ 64 - 2 ^ 63 > (1000 : Int)
    decide
  · rfl

/-- Claim C10, amended: `do_fallocate` returns `-EINVAL` when
`offset < 0` or `len ≤ 0`; it returns `-EFBIG` when that first check
passes, the intermediate mode/permission/security/file-type checks all
pass, and `offset + len` (as a wrapping `loff_t` sum) exceeds
`s_maxbytes` or wraps negative; in both cases the filesystem's
`fallocate` operation is not invoked, and the operation is invoked
only when every validation step has passed. -/
theorem do_fallocate_validates (file : FsOpen.File) (mode : Nat)
    (offset len : Int) :
    ((offset < 0 ∨ len ≤ 0) →
      FsOpen.do_fallocate file mode offset len = (-22, false)) ∧
    (¬(offset < 0 ∨ len ≤ 0) → FsOpen.fallocate_prechecks file mode →
      (FsOpen.loffWrap (offset + len) > file.s_maxbytes ∨
        FsOpen.loffWrap (offset + len) < 0) →
      FsOpen.do_fallocate file mode offset len = (-27, false)) ∧
    ((FsOpen.do_fallocate file mode offset len).2 = true →
      0 ≤ offset ∧ 0 < len ∧ FsOpen.fallocate_prechecks file mode ∧
      FsOpen.loffWrap (offset + len) ≤ file.s_maxbytes ∧
      0 ≤ FsOpen.loffWrap (offset + len) ∧ file.has_fallocate = true ∧
      FsOpen.do_fallocate file mode offset len =
        (file.fallocate_ret, true)) := by
  refine ⟨fun h => ?_, fun h1 hp hr => ?_, fun hinv => ?_⟩
  · unfold FsOpen.do_fallocate
    rw [if_pos h]
  · obtain ⟨p1, p2, p3, p4, p5, p6, p7, p8⟩ := hp
    unfold FsOpen.do_fallocate
    rw [if_neg h1, if_neg (not_not_intro p1), if_neg p2,
      if_neg (not_not_intro p3), if_neg p4, if_neg (by simp [p5]),
      if_neg (not_not_intro p6), if_neg (by simp [p7]),
      if_neg (by rcases p8 with h | h <;> simp [h]), if_pos hr]
  · unfold FsOpen.do_fallocate at hinv ⊢
    have h1 : ¬(offset < 0 ∨ len ≤ 0) := by
      intro hc
      rw [if_pos hc] at hinv
      exact absurd hinv (by simp)
    rw [if_neg h1] at hinv ⊢
    have h2 : ¬(mode >>> 2 ≠ 0) := by
      intro hc
      rw [if_pos hc] at hinv
      exact absurd hinv (by simp)
    rw [if_neg h2] at hinv ⊢
    have h3 : ¬(mode &&& FsOpen.FALLOC_FL_PUNCH_HOLE ≠ 0 ∧
        mode &&& FsOpen.FALLOC_FL_KEEP_SIZE = 0) := by
      intro hc
      rw [if_pos hc] at hinv
      exact absurd hinv (by simp)
    rw [if_neg h3] at hinv ⊢
    have h4 : ¬¬(file.f_mode_write = true) := by
      intro hc
      rw [if_pos hc] at hinv
      exact absurd hinv (by simp)
    rw [if_neg h4] at hinv ⊢
    have h5 : ¬(mode &&& FsOpen.FALLOC_FL_PUNCH_HOLE ≠ 0 ∧
        file.i_append = true) := by
      intro hc
      rw [if_pos hc] at hinv
      exact absurd hinv (by simp)
    rw [if_neg h5] at hinv ⊢
    have h6 : ¬(file.i_immutable = true) := by
      intro hc
      rw [if_pos hc] at hinv
      exact absurd hinv (by simp)
    rw [if_neg h6] at hinv ⊢
    have h7 : ¬(file.security_ret ≠ 0) := by
      intro hc
      rw [if_pos hc] at hinv
      exact absurd hinv (by simp)
    rw [if_neg h7] at hinv ⊢
    have h8 : ¬(file.is_fifo = true) := by
      intro hc
      rw [if_pos hc] at hinv
      exact absurd hinv (by simp)
    rw [if_neg h8] at hinv ⊢
    have h9 : ¬(¬(file.is_reg = true) ∧ ¬(file.is_dir = true)) := by
      intro hc
      rw [if_pos hc] at hinv
      exact absurd hinv (by simp)
    rw [if_neg h9] at hinv ⊢
    have h10 : ¬(FsOpen.loffWrap (offset + len) > file.s_maxbytes ∨
        FsOpen.loffWrap (offset + len) < 0) := by
      intro hc
      rw [if_pos hc] at hinv
      exact absurd hinv (by simp)
    rw [if_neg h10] at hinv ⊢
    have h11 : ¬¬(file.has_fallocate = true) := by
      intro hc
      rw [if_pos hc] at hinv
      exact absurd hinv (by simp)
    rw [if_neg h11] at hinv ⊢
    push_neg at h1
    push_neg at h10
    refine ⟨by omega, by omega,
      ⟨not_not.mp h2, h3, not_not.mp h4, h5, by simpa using h6,
        not_not.mp h7, by simpa using h8, ?_⟩,
      h10.1, h10.2, not_not.mp h11, rfl⟩
    rcases Decidable.em (file.is_reg = true) with hreg | hreg
    · exact Or.inl hreg
    · rcases Decidable.em (file.is_dir = true) with hdir | hdir
      · exact Or.inr hdir
      · exact absurd ⟨hreg, hdir⟩ h9

/-- Closed instance of `do_fallocate_validates`: on a writable file
with `s_maxbytes = 1000`, a negative offset yields `-EINVAL` and an
over-large range yields `-EFBIG`, neither invoking `fallocate`. -/
theorem do_fallocate_validates_witness :
    FsOpen.do_fallocate
        { FsOpen.c10file with f_mode_write := true } 0 (-1) 10 =
      (-22, false) ∧
    FsOpen.do_fallocate
        { FsOpen.c10file with f_mode_write := true } 0 0 2000 =
      (-27, false) :=
  ⟨(do_fallocate_validates _ 0 (-1) 10).1 (Or.inl (by decide)),
   (do_fallocate_validates _ 0 0 2000).2.1 (by decide) (by decide)
     (Or.inl (by show (0 + 2000 + 2 ^ 63) % 2 ^ 64 - 2 ^ 63 > (1000 : Int); decide))⟩


/-- Claim C3: for every delta stack (top-first list `[dₙ, …, d₁, base]`)
and logical cluster `L`, `lookup` returns `some (d, p)` exactly for the
first (highest) layer `d` whose BAT entry for `L` is non-hole, with `p`
that entry; if every layer has a hole, `lookup` returns `none` and a
read of `L` returns all zero bytes. -/
theorem lookup_first_nonhole (stack : List Ploop.Delta) (cb L : Nat) :
    (∀ d p, Ploop.lookup stack L = some (d, p) →
      ∃ i, stack.get? i = some d ∧ Ploop.batEntry d L = p ∧ p ≠ 0 ∧
        ∀ e ∈ stack.take i, Ploop.batEntry e L = 0) ∧
    (Ploop.lookup stack L = none ↔ ∀ d ∈ stack, Ploop.batEntry d L = 0) ∧
    (Ploop.lookup stack L = none →
      Ploop.readCluster stack cb L = List.replicate cb 0) := by
  refine ⟨?_, ?_, ?_⟩
  · induction stack with
    | nil =>
        intro d p h
        simp [Ploop.lookup] at h
    | cons a rest ih =>
        intro d p h
        unfold Ploop.lookup at h
        by_cases ha : Ploop.batEntry a L = 0
        · rw [if_neg (not_not_intro ha)] at h
          obtain ⟨i, h1, h2, h3, h4⟩ := ih d p h
          refine ⟨i + 1, by simpa using h1, h2, h3, ?_⟩
          intro e he
          rw [List.take_succ_cons] at he
          rcases List.mem_cons.mp he with rfl | he
          · exact ha
          · exact h4 e he
        · rw [if_pos ha] at h
          obtain ⟨rfl, rfl⟩ := Prod.mk.injEq .. ▸ Option.some.injEq .. ▸ h
          exact ⟨0, by simp, rfl, ha, by simp⟩
  · induction stack with
    | nil => simp [Ploop.lookup]
    | cons a rest ih =>
        unfold Ploop.lookup
        by_cases ha : Ploop.batEntry a L = 0
        · rw [if_neg (not_not_intro ha)]
          simp [ha, ih]
        · rw [if_pos ha]
          simp [ha]
  · intro h
    unfold Ploop.readCluster
    rw [h]

/-- Closed instance of `lookup_first_nonhole`: on the empty stack the
lookup misses and the cluster reads as five zero bytes. -/
theorem lookup_first_nonhole_witness :
    Ploop.readCluster ([] : List Ploop.Delta) 5 0 = List.replicate 5 0 :=
  (lookup_first_nonhole [] 5 0).2.2 rfl

/-- Claim C6: adding a delta whose cluster size differs from the top of
the stack is rejected with `IncompatibleClusterSize` (both a larger and
a smaller cluster), so in every reachable stack all layers share the
stack's `cluster_shift`. -/
theorem add_delta_cluster_size (c : Nat) (s : List Ploop.Layer)
    (h : Ploop.StackOk c s) :
    (∀ d top rest, s = top :: rest →
      d.cluster_shift ≠ top.cluster_shift →
      Ploop.addDelta s d = .error .IncompatibleClusterSize) ∧
    (∀ l ∈ s, l.cluster_shift = c) := by
  constructor
  · intro d top rest hs hne
    subst hs
    simp [Ploop.addDelta, hne]
  · induction h with
    | base_image =>
        intro l hl
        rw [List.mem_singleton.mp hl]
    | base_raw =>
        intro l hl
        rw [List.mem_singleton.mp hl]
    | add s d t hs hadd ih =>
        intro l hl
        cases s with
        | nil => simp [Ploop.addDelta] at hadd
        | cons top rest =>
            rcases Decidable.em (d.cluster_shift = top.cluster_shift) with heq | hne
            · simp [Ploop.addDelta, heq] at hadd
              subst hadd
              rcases List.mem_cons.mp hl with rfl | hl2
              · rw [heq]
                exact ih top (List.mem_cons_self top rest)
              · exact ih l hl2
            · simp [Ploop.addDelta, hne] at hadd

/-- Closed instance of `add_delta_cluster_size`: a delta with shift 12
on a one-layer base stack of shift 11 is rejected. -/
theorem add_delta_cluster_size_witness :
    Ploop.addDelta [⟨Ploop.Role.imageBase, 11⟩] ⟨Ploop.Role.imageDelta, 12⟩ =
      .error .IncompatibleClusterSize :=
  (add_delta_cluster_size 11 _ Ploop.StackOk.base_image).1
    ⟨Ploop.Role.imageDelta, 12⟩ ⟨Ploop.Role.imageBase, 11⟩ [] rfl (by decide)

/-- Claim C7: caller errors are reported synchronously by the
translator with no state change; in particular a request whose logical
offset lies beyond the current virtual size gets `OutOfRange` and the
engine state (stack, BATs, deltas, slots) is returned unchanged. -/
theorem submit_caller_errors (s : Ploop.EngineState) (r : Ploop.Request) :
    (∀ e, (Ploop.submit s r).2 = .error e → (Ploop.submit s r).1 = s) ∧
    (s.virtualSizeSectors * 512 < r.offsetBytes →
      Ploop.submit s r = (s, .error .OutOfRange)) := by
  constructor
  · intro e he
    unfold Ploop.submit at he ⊢
    by_cases h1 : r.offsetBytes + r.lenBytes > s.virtualSizeSectors * 512
    · rw [if_pos h1]
    · rw [if_neg h1] at he ⊢
      by_cases h2 : r.offsetBytes % 512 ≠ 0 ∨ r.lenBytes % 512 ≠ 0
      · rw [if_pos h2]
      · rw [if_neg h2] at he
        exact absurd he (by simp)
  · intro h
    unfold Ploop.submit
    rw [if_pos (by omega)]

/-- Closed instance of `submit_caller_errors`: a request at byte offset
8192 on a disk of 8 sectors (4096 bytes) is rejected as out of range
with the state unchanged. -/
theorem submit_caller_errors_witness :
    Ploop.submit ⟨[], 8, 2048, []⟩ ⟨8192, 0, false⟩ =
      (⟨[], 8, 2048, []⟩, .error .OutOfRange) :=
  (submit_caller_errors ⟨[], 8, 2048, []⟩ ⟨8192, 0, false⟩).2 (by decide)

theorem subComplete_fields (p : Ploop.Parent) (e : Nat) :
    (Ploop.subComplete p e).pending = p.pending - 1 ∧
    (Ploop.subComplete p e).err = (if p.err = 0 then e else p.err) ∧
    (Ploop.subComplete p e).callerDone =
      (if p.pending - 1 = 0 then some (if p.err = 0 then e else p.err)
       else p.callerDone) :=
  ⟨rfl, rfl, rfl⟩

theorem runSubs_callerDone_lt (es : List Nat) :
    ∀ p : Ploop.Parent, es.length < p.pending →
      (Ploop.runSubs p es).callerDone = p.callerDone := by
  induction es with
  | nil => intro p h; rfl
  | cons e es ih =>
      intro p h
      have hlen : (e :: es).length = es.length + 1 := List.length_cons e es
      show (Ploop.runSubs (Ploop.subComplete p e) es).callerDone = _
      rw [ih (Ploop.subComplete p e)
        (by rw [(subComplete_fields p e).1]; omega)]
      rw [(subComplete_fields p e).2.2, if_neg (by omega)]

theorem runSubs_callerDone_eq (es : List Nat) :
    ∀ p : Ploop.Parent, p.pending = es.length → 1 ≤ es.length →
      (Ploop.runSubs p es).callerDone = some (Ploop.accumErr p.err es) := by
  induction es with
  | nil => intro p hp h1; exact absurd h1 (by simp)
  | cons e es ih =>
      intro p hp h1
      cases es with
      | nil =>
          have hp1 : p.pending = 1 := by simpa using hp
          show (Ploop.subComplete p e).callerDone = _
          rw [(subComplete_fields p e).2.2, if_pos (by omega)]
          rfl
      | cons e2 es2 =>
          have hp2 : p.pending = es2.length + 2 := by
            simp at hp
            omega
          show (Ploop.runSubs (Ploop.subComplete p e) (e2 :: es2)).callerDone = _
          rw [ih (Ploop.subComplete p e)
            (by rw [(subComplete_fields p e).1, List.length_cons]; omega)
            (by simp)]
          rw [(subComplete_fields p e).2.1]
          rfl

theorem accumErr_eq_zero (es : List Nat) :
    ∀ a : Nat, Ploop.accumErr a es = 0 ↔ (a = 0 ∧ ∀ e ∈ es, e = 0) := by
  induction es with
  | nil => intro a; simp [Ploop.accumErr]
  | cons e es ih =>
      intro a
      rcases Decidable.em (a = 0) with ha | ha
      · subst ha
        simp [Ploop.accumErr, ih]
      · simp [Ploop.accumErr, ih, ha]

/-- Claim C5: a request split into `n` per-cluster sub-requests
completes only after all `n` sub-requests have completed; when it
does, the caller sees the first non-success error in arrival order
(all-or-nothing: a success result means every sub-request
succeeded). -/
theorem parent_all_or_nothing (n : Nat) (es : List Nat) (hn : 1 ≤ n) :
    (es.length < n →
      (Ploop.runSubs (Ploop.mkParent n) es).callerDone = none) ∧
    (es.length = n →
      (Ploop.runSubs (Ploop.mkParent n) es).callerDone =
        some (Ploop.accumErr 0 es)) ∧
    (Ploop.accumErr 0 es = 0 ↔ ∀ e ∈ es, e = 0) := by
  refine ⟨fun h => ?_, fun h => ?_, ?_⟩
  · rw [runSubs_callerDone_lt es (Ploop.mkParent n) (by simpa using h)]
    rfl
  · exact runSubs_callerDone_eq es (Ploop.mkParent n) (by simpa using h.symm)
      (by omega)
  · rw [accumErr_eq_zero es 0]
    simp

/-- Closed instance of `parent_all_or_nothing`: with three subs and
only two arrivals the caller is not notified; with two subs and
arrivals `[0, 7]` the caller gets error 7. -/
theorem parent_all_or_nothing_witness :
    (Ploop.runSubs (Ploop.mkParent 3) [0, 7]).callerDone = none ∧
    (Ploop.runSubs (Ploop.mkParent 2) [0, 7]).callerDone = some 7 :=
  ⟨(parent_all_or_nothing 3 [0, 7] (by decide)).1 (by decide),
   ((parent_all_or_nothing 2 [0, 7] (by decide)).2.1 (by decide)).trans
     (by decide)⟩

theorem genStep_mono (s : Ploop.GenState) (op : Ploop.GenOp)
    (h : s.hdrGen ≤ s.nextGen) :
    (Ploop.genStep s op).hdrGen ≤ (Ploop.genStep s op).nextGen ∧
    s.hdrGen ≤ (Ploop.genStep s op).hdrGen ∧
    s.nextGen ≤ (Ploop.genStep s op).nextGen := by
  cases op with
  | commit => exact ⟨Nat.le_succ _, h, Nat.le_succ _⟩
  | cleanClose => exact ⟨h, Nat.le_refl _, Nat.le_refl _⟩
  | reopen => exact ⟨h, Nat.le_refl _, Nat.le_refl _⟩

theorem genRun_hdr_mono (ops : List Ploop.GenOp) :
    ∀ s : Ploop.GenState, s.hdrGen ≤ s.nextGen →
      s.hdrGen ≤ (Ploop.genRun s ops).hdrGen ∧
      (Ploop.genRun s ops).hdrGen ≤ (Ploop.genRun s ops).nextGen ∧
      s.nextGen ≤ (Ploop.genRun s ops).nextGen := by
  induction ops with
  | nil => intro s h; exact ⟨Nat.le_refl _, h, Nat.le_refl _⟩
  | cons op ops ih =>
      intro s h
      obtain ⟨h1, h2, h3⟩ := genStep_mono s op h
      obtain ⟨g1, g2, g3⟩ := ih (Ploop.genStep s op) h1
      exact ⟨h2.trans g1, g2, h3.trans g3⟩

theorem assignedGens_lb (ops : List Ploop.GenOp) :
    ∀ s : Ploop.GenState, ∀ g ∈ Ploop.assignedGens s ops, s.nextGen ≤ g := by
  induction ops with
  | nil => intro s g hg; simp [Ploop.assignedGens] at hg
  | cons op ops ih =>
      intro s g hg
      cases op with
      | commit =>
          simp only [Ploop.assignedGens] at hg
          rcases List.mem_cons.mp hg with rfl | hg
          · exact Nat.le_refl _
          · exact Nat.le_of_succ_le (ih _ g hg)
      | cleanClose => exact ih _ g hg
      | reopen => exact ih _ g hg

theorem assignedGens_sorted (ops : List Ploop.GenOp) :
    ∀ s : Ploop.GenState,
      List.Pairwise (fun a b => a < b) (Ploop.assignedGens s ops) := by
  induction ops with
  | nil => intro s; simp [Ploop.assignedGens]
  | cons op ops ih =>
      intro s
      cases op with
      | commit =>
          simp only [Ploop.assignedGens]
          refine List.Pairwise.cons ?_ (ih _)
          intro g hg
          exact Nat.lt_of_succ_le (assignedGens_lb ops _ g hg)
      | cleanClose => exact ih _
      | reopen => exact ih _

theorem observedGens_lb (ops : List Ploop.GenOp) :
    ∀ s : Ploop.GenState, s.hdrGen ≤ s.nextGen →
      ∀ g ∈ Ploop.observedGens s ops, s.hdrGen ≤ g := by
  induction ops with
  | nil => intro s h g hg; simp [Ploop.observedGens] at hg
  | cons op ops ih =>
      intro s h g hg
      cases op with
      | reopen =>
          simp only [Ploop.observedGens] at hg
          rcases List.mem_cons.mp hg with rfl | hg
          · exact Nat.le_refl _
          · exact ih _ h g hg
      | commit => exact h.trans (ih _ (Nat.le_succ _) g hg)
      | cleanClose => exact ih _ h g hg

theorem observedGens_sorted (ops : List Ploop.GenOp) :
    ∀ s : Ploop.GenState, s.hdrGen ≤ s.nextGen →
      List.Pairwise (fun a b => a ≤ b) (Ploop.observedGens s ops) := by
  induction ops with
  | nil => intro s h; simp [Ploop.observedGens]
  | cons op ops ih =>
      intro s h
      cases op with
      | reopen =>
          simp only [Ploop.observedGens]
          exact List.Pairwise.cons
            (fun g hg => observedGens_lb ops s h g hg) (ih s h)
      | commit => exact ih _ (Nat.le_succ _)
      | cleanClose => exact ih _ h

/-- Claim C4: the generation counter is monotone: the generations
assigned to successive commit transactions are strictly increasing,
the header generations observed at successive re-opens never decrease,
and a run never lowers the durable header generation. -/
theorem generation_monotone (s : Ploop.GenState) (ops : List Ploop.GenOp)
    (hinv : s.hdrGen ≤ s.nextGen) :
    List.Pairwise (fun a b => a < b) (Ploop.assignedGens s ops) ∧
    List.Pairwise (fun a b => a ≤ b) (Ploop.observedGens s ops) ∧
    s.hdrGen ≤ (Ploop.genRun s ops).hdrGen :=
  ⟨assignedGens_sorted ops s, observedGens_sorted ops s hinv,
   (genRun_hdr_mono ops s hinv).1⟩

/-- Closed instance of `generation_monotone` on the run
commit, reopen, commit, clean close, reopen from a fresh state. -/
theorem generation_monotone_witness :
    List.Pairwise (fun a b => a < b)
      (Ploop.assignedGens ⟨1, 0⟩
        [.commit, .reopen, .commit, .cleanClose, .reopen]) ∧
    List.Pairwise (fun a b => a ≤ b)
      (Ploop.observedGens ⟨1, 0⟩
        [.commit, .reopen, .commit, .cleanClose, .reopen]) ∧
    (⟨1, 0⟩ : Ploop.GenState).hdrGen ≤
      (Ploop.genRun ⟨1, 0⟩
        [.commit, .reopen, .commit, .cleanClose, .reopen]).hdrGen :=
  generation_monotone ⟨1, 0⟩ [.commit, .reopen, .commit, .cleanClose, .reopen]
    (by decide)

theorem recoverPage_id (hg : Nat) (p : Ploop.BatPage) (h : p.gen ≤ hg) :
    Ploop.recoverPage hg p = p := by
  simp [Ploop.recoverPage, Nat.not_lt.mpr h]

theorem recoverPage_masked (hg G : Nat) (es : List Nat) (h : hg < G) :
    Ploop.recoverPage hg ⟨G, es⟩ = ⟨G, List.replicate es.length 0⟩ := by
  simp [Ploop.recoverPage, h]

theorem map_recoverPage_id (hg : Nat) :
    ∀ ps : List Ploop.BatPage, (∀ p ∈ ps, p.gen ≤ hg) →
      ps.map (Ploop.recoverPage hg) = ps := by
  intro ps
  induction ps with
  | nil => intro h; rfl
  | cons p ps ih =>
      intro h
      rw [List.map_cons, recoverPage_id hg p (h p (List.mem_cons_self p ps)),
        ih (fun q hq => h q (List.mem_cons_of_mem p hq))]

theorem recover_eq_of_wf (d : Ploop.DiskDelta) (hwf : Ploop.WellFormed d) :
    Ploop.recover d = d := by
  unfold Ploop.recover
  rw [map_recoverPage_id d.hdrGen d.pages hwf]

theorem writePages_get? (G : Nat) (sub : List (Nat × List Nat)) :
    ∀ (ps : List Ploop.BatPage) (i : Nat),
      (Ploop.writePages ps G sub).get? i = ps.get? i ∨
      ∃ es, (Ploop.writePages ps G sub).get? i = some ⟨G, es⟩ := by
  induction sub with
  | nil => intro ps i; exact Or.inl rfl
  | cons d sub ih =>
      intro ps i
      have hunf : Ploop.writePages ps G (d :: sub) =
          Ploop.writePages (ps.set d.1 ⟨G, d.2⟩) G sub := rfl
      rw [hunf]
      rcases ih (ps.set d.1 ⟨G, d.2⟩) i with h | ⟨es, h⟩
      · rw [h]
        rcases Decidable.em (d.1 = i) with he | he
        · subst he
          rw [List.get?_set_eq]
          cases hq : ps.get? d.1 with
          | none => exact Or.inl rfl
          | some q => exact Or.inr ⟨d.2, rfl⟩
        · rw [List.get?_set_ne _ _ he]
          exact Or.inl rfl
      · exact Or.inr ⟨es, h⟩

theorem getD_replicate_zero : ∀ n i : Nat,
    (List.replicate n (0 : Nat)).getD i 0 = 0 := by
  intro n
  induction n with
  | zero => intro i; rfl
  | succ n ih =>
      intro i
      cases i with
      | zero => rfl
      | succ j => exact ih j

/-- Claim C1, amended: after an unclean shutdown during the commit of
generation `G` over a committed delta (header generation below `G`),
recovery treats every page whose embedded generation exceeds the
header's as all-hole.  Consequently a committed delta recovers to
itself, and each observed BAT entry either equals the entry of the
most recent committed generation or is a hole; in particular data
written under the uncommitted transaction is invisible.  The claim's
stronger statement — that the observed mapping always *equals* the
committed mapping — fails when the uncommitted transaction rewrote a
page that carried committed entries (see the counterexample). -/
theorem recovery_masks_uncommitted (epp : Nat) (d : Ploop.DiskDelta)
    (G : Nat) (sub : List (Nat × List Nat)) (hwf : Ploop.WellFormed d)
    (hG : d.hdrGen < G) :
    Ploop.recover d = d ∧
    ∀ L, Ploop.observed epp (Ploop.commitCrash d G sub) L =
        Ploop.observed epp d L ∨
      Ploop.observed epp (Ploop.commitCrash d G sub) L = 0 := by
  refine ⟨recover_eq_of_wf d hwf, fun L => ?_⟩
  have hc : Ploop.observed epp (Ploop.commitCrash d G sub) L =
      ((((Ploop.writePages d.pages G sub).get? (L / epp)).map
        (Ploop.recoverPage d.hdrGen)).getD ⟨0, []⟩).entries.getD
        (L % epp) 0 := by
    unfold Ploop.observed Ploop.recover Ploop.commitCrash
    rw [List.get?_map]
  have hd2 : Ploop.observed epp d L =
      (((d.pages.get? (L / epp)).map (Ploop.recoverPage d.hdrGen)).getD
        ⟨0, []⟩).entries.getD (L % epp) 0 := by
    unfold Ploop.observed Ploop.recover
    rw [List.get?_map]
  rcases writePages_get? G sub d.pages (L / epp) with h | ⟨es, h⟩
  · rw [hc, hd2, h]
    exact Or.inl rfl
  · right
    rw [hc, h]
    show ((Ploop.recoverPage d.hdrGen ⟨G, es⟩).entries).getD (L % epp) 0 = 0
    rw [recoverPage_masked d.hdrGen G es hG]
    exact getD_replicate_zero es.length (L % epp)

/-- Claim C1, counterexample to the claim as stated: `c1disk` is a
committed delta (header generation 1) whose single page maps logical
cluster 0 to physical cluster 5.  An unfinished transaction of
generation 2 rewrote that page (adding a mapping for cluster 1) and
crashed before the header bump.  Recovery masks the whole page, so
cluster 0 observes a hole (0) instead of the committed mapping 5: the
observed mapping is not equal to the mapping of the most recent
successfully committed generation. -/
theorem recovery_not_last_committed_cex :
    Ploop.WellFormed Ploop.c1disk ∧
    Ploop.observed 1 Ploop.c1disk 0 = 5 ∧
    Ploop.observed 1 (Ploop.commitCrash Ploop.c1disk 2 [(0, [5, 7])]) 0 = 0 ∧
    (0 : Nat) ≠ 5 := by
  refine ⟨by decide, by decide, by decide, by decide⟩

/-- Closed instance of `recovery_masks_uncommitted` on `c1disk` with an
uncommitted generation-2 transaction. -/
theorem recovery_masks_uncommitted_witness :
    Ploop.recover Ploop.c1disk = Ploop.c1disk ∧
    (Ploop.observed 1 (Ploop.commitCrash Ploop.c1disk 2 [(0, [5, 7])]) 0 =
        Ploop.observed 1 Ploop.c1disk 0 ∨
      Ploop.observed 1 (Ploop.commitCrash Ploop.c1disk 2 [(0, [5, 7])]) 0
        = 0) :=
  let h := recovery_masks_uncommitted 1 Ploop.c1disk 2 [(0, [5, 7])]
    (by decide) (by decide)
  ⟨h.1, h.2 0⟩

theorem barStep_inv (b : Nat) (nb : Nat → Bool) (s s2 : Ploop.BarState)
    (e : Ploop.BarEv) (hinv : Ploop.BarInv b nb s)
    (hstep : Ploop.barStep b nb s e = some s2) : Ploop.BarInv b nb s2 := by
  obtain ⟨h1, h2⟩ := hinv
  cases e with
  | data i =>
      injection hstep with h
      subst h
      refine ⟨fun k hk => ?_, fun hb j hj => ?_⟩
      · obtain ⟨hd, hbat, hbar⟩ := h1 k hk
        exact ⟨List.mem_cons_of_mem i hd, hbat, hbar⟩
      · obtain ⟨hd, hbat⟩ := h2 hb j hj
        exact ⟨List.mem_cons_of_mem i hd, hbat⟩
  | bat i =>
      injection hstep with h
      subst h
      refine ⟨fun k hk => ?_, fun hb j hj => ?_⟩
      · obtain ⟨hd, hbat, hbar⟩ := h1 k hk
        exact ⟨hd, fun hn => List.mem_cons_of_mem i (hbat hn), hbar⟩
      · obtain ⟨hd, hbat⟩ := h2 hb j hj
        exact ⟨hd, fun hn => List.mem_cons_of_mem i (hbat hn)⟩
  | complete i =>
      simp only [Ploop.barStep] at hstep
      rcases Decidable.em (i ∈ s.dataD ∧ (nb i = true → i ∈ s.batD) ∧
          (b ≤ i → s.barrier = true)) with hC | hC
      · rw [if_pos hC] at hstep
        injection hstep with h
        subst h
        refine ⟨fun k hk => ?_, h2⟩
        rcases List.mem_cons.mp hk with rfl | hk
        · exact hC
        · exact h1 k hk
      · rw [if_neg hC] at hstep
        exact Option.noConfusion hstep
  | barrierDone =>
      simp only [Ploop.barStep] at hstep
      rcases Decidable.em (∀ j < b, j ∈ s.dataD ∧
          (nb j = true → j ∈ s.batD)) with hC | hC
      · rw [if_pos hC] at hstep
        injection hstep with h
        subst h
        refine ⟨fun k hk => ?_, fun hb j hj => hC j hj⟩
        obtain ⟨hd, hbat, hbar⟩ := h1 k hk
        exact ⟨hd, hbat, fun _ => rfl⟩
      · rw [if_neg hC] at hstep
        exact Option.noConfusion hstep

theorem barRun_inv (b : Nat) (nb : Nat → Bool) (t : List Ploop.BarEv) :
    ∀ s s2, Ploop.BarInv b nb s → Ploop.barRun b nb s t = some s2 →
      Ploop.BarInv b nb s2 := by
  induction t with
  | nil =>
      intro s s2 h hr
      injection hr with h2
      subst h2
      exact h
  | cons e t ih =>
      intro s s2 h hr
      unfold Ploop.barRun at hr
      cases hstep : Ploop.barStep b nb s e with
      | none =>
          simp only [hstep] at hr
          exact Option.noConfusion hr
      | some s1 =>
          simp only [hstep] at hr
          exact ih s1 s2 (barStep_inv b nb s s1 e h hstep) hr

/-- Claim C2: in every admissible run of the completion path, a
write's completion is signalled only after its data is durable and any
newly created BAT mapping is committed with the generation persisted;
the barrier's completion is signalled only after all writes submitted
before it are durable in both respects; and a write submitted after
the barrier never completes before the barrier does. -/
theorem barrier_ordering (b : Nat) (nb : Nat → Bool)
    (t : List Ploop.BarEv) (s : Ploop.BarState)
    (h : Ploop.barRun b nb Ploop.barInit t = some s) :
    (∀ i ∈ s.compl, i ∈ s.dataD ∧ (nb i = true → i ∈ s.batD)) ∧
    (s.barrier = true → ∀ j < b, j ∈ s.dataD ∧
      (nb j = true → j ∈ s.batD)) ∧
    (∀ i ∈ s.compl, b ≤ i → s.barrier = true) := by
  have hinit : Ploop.BarInv b nb Ploop.barInit := by
    constructor
    · intro i hi
      exact absurd hi (by simp [Ploop.barInit])
    · intro hb
      exact absurd hb (by simp [Ploop.barInit])
  obtain ⟨h1, h2⟩ := barRun_inv b nb t Ploop.barInit s hinit h
  exact ⟨fun i hi => ⟨(h1 i hi).1, (h1 i hi).2.1⟩, h2,
    fun i hi hbi => (h1 i hi).2.2 hbi⟩

/-- Closed instance of `barrier_ordering`: a run with one pre-barrier
allocating write (index 0), the barrier, and one post-barrier write
(index 1); the post-barrier write's completion finds the barrier
already completed, and the barrier found write 0 fully durable. -/
theorem barrier_ordering_witness :
    (0 : Nat) ∈ (⟨[1, 0], [0], [1], true⟩ : Ploop.BarState).dataD ∧
    (⟨[1, 0], [0], [1], true⟩ : Ploop.BarState).barrier = true :=
  let h := barrier_ordering 1 (fun i => decide (i = 0))
    [.data 0, .bat 0, .barrierDone, .data 1, .complete 1]
    ⟨[1, 0], [0], [1], true⟩ (by decide)
  ⟨(h.2.1 (by decide) 0 (by decide)).1, h.2.2 1 (by decide) (by decide)⟩

theorem getD_some_mem (l : List (Option Nat)) (L : Nat) (p : Nat)
    (h : l.getD L none = some p) : some p ∈ l := by
  rw [List.getD_eq_getElem?_getD] at h
  cases hq : l[L]? with
  | none =>
      rw [hq] at h
      exact absurd h (by simp)
  | some q =>
      rw [hq] at h
      simp at h
      subst h
      exact List.getElem?_mem hq

theorem entryOk_empty (bc vs : Nat) : Ploop.EntryOk (Ploop.emptyMeta bc vs) := by
  intro e he p hep
  have he2 : e = none := List.eq_of_mem_replicate he
  subst he2
  exact Option.noConfusion hep

theorem entryOk_alloc (d : Ploop.DeltaMeta) (L : Nat)
    (h : Ploop.EntryOk d) : Ploop.EntryOk (Ploop.allocWrite d L) := by
  intro e he p hep
  rcases List.mem_or_eq_of_mem_set he with he2 | he2
  · exact h e he2 p hep
  · rw [he2] at hep
    injection hep with h2
    subst h2
    simp only [Ploop.allocTail, Ploop.firstDataCluster]
    omega

theorem entryOk_grow (d : Ploop.DeltaMeta) (n : Nat)
    (h : Ploop.EntryOk d) : Ploop.EntryOk (Ploop.growVirtual d n) := by
  intro e he p hep
  rcases List.mem_append.mp he with he2 | he2
  · exact h e he2 p hep
  · have he3 : e = none := List.eq_of_mem_replicate he2
    subst he3
    exact Option.noConfusion hep

theorem entryOk_merge (lower upper : Ploop.DeltaMeta)
    (hl : Ploop.EntryOk lower) (hu : Ploop.EntryOk upper) :
    Ploop.EntryOk (Ploop.mergeInto lower upper) := by
  intro e he p hep
  obtain ⟨L, hL, hfL⟩ := List.mem_map.mp he
  rw [hep] at hfL
  cases hu2 : upper.bat.getD L none with
  | some q =>
      simp only [hu2] at hfL
      cases hl2 : lower.bat.getD L none with
      | some r =>
          simp only [hl2] at hfL
          injection hfL with h3
          subst h3
          exact hl (some r) (getD_some_mem lower.bat L r hl2) r rfl
      | none =>
          simp only [hl2] at hfL
          injection hfL with h3
          subst h3
          exact hu (some q) (getD_some_mem upper.bat L q hu2) q rfl
  | none =>
      simp only [hu2] at hfL
      exact hl (some p) (getD_some_mem lower.bat L p hfL) p rfl

theorem metaStep_entries {s t : List Ploop.DeltaMeta}
    (h : Ploop.StackEntriesOk s) (hs : Ploop.MetaStep s t) :
    Ploop.StackEntriesOk t := by
  cases hs with
  | snapshot s bc vs =>
      intro d hd
      rcases List.mem_cons.mp hd with rfl | hd
      · exact entryOk_empty bc vs
      · exact h d hd
  | alloc top rest L =>
      intro d hd
      rcases List.mem_cons.mp hd with rfl | hd
      · exact entryOk_alloc top L (h top (List.mem_cons_self top rest))
      · exact h d (List.mem_cons_of_mem top hd)
  | relocate top rest L =>
      intro d hd
      rcases List.mem_cons.mp hd with rfl | hd
      · exact entryOk_alloc top L (h top (List.mem_cons_self top rest))
      · exact h d (List.mem_cons_of_mem top hd)
  | grow top rest n =>
      intro d hd
      rcases List.mem_cons.mp hd with rfl | hd
      · exact entryOk_grow top n (h top (List.mem_cons_self top rest))
      · exact h d (List.mem_cons_of_mem top hd)
  | merge upper lower rest =>
      intro d hd
      rcases List.mem_cons.mp hd with rfl | hd
      · exact entryOk_merge lower upper
          (h lower (List.mem_cons_of_mem upper (List.mem_cons_self lower rest)))
          (h upper (List.mem_cons_self upper (lower :: rest)))
      · exact h d (List.mem_cons_of_mem upper (List.mem_cons_of_mem lower hd))

theorem metaReach_entries {s : List Ploop.DeltaMeta}
    (h : Ploop.MetaReach s) : Ploop.StackEntriesOk s := by
  induction h with
  | init bc vs =>
      intro d hd
      rw [List.mem_singleton.mp hd]
      exact entryOk_empty bc vs
  | step hr hs ih => exact metaStep_entries ih hs

/-- Claim C8: in every reachable stack no BAT entry of any delta
references physical cluster 0: every present mapping created by
allocate, copy-up, relocate, merge or grow targets a physical cluster
index of at least 1, and the on-disk encoding — a hole stored as the
reserved entry value 0 — never conflates a mapping with a hole. -/
theorem bat_never_references_cluster_zero (s : List Ploop.DeltaMeta)
    (h : Ploop.MetaReach s) :
    ∀ d ∈ s, ∀ e ∈ d.bat, e ≠ some 0 ∧ (∀ p, e = some p → 1 ≤ p) ∧
      (Ploop.encodeEntry e = 0 ↔ e = none) := by
  intro d hd e he
  have hok := metaReach_entries h d hd e he
  refine ⟨?_, hok, ?_⟩
  · intro hc
    exact absurd (hok 0 hc) (by omega)
  · cases e with
    | none => simp [Ploop.encodeEntry]
    | some p =>
        have hp := hok p rfl
        simp only [Ploop.encodeEntry]
        constructor
        · intro hc
          exact absurd hc (by omega)
        · intro hc
          exact Option.noConfusion hc

/-- Closed instance of `bat_never_references_cluster_zero` on the
stack reached by allocating logical cluster 0 in a fresh delta: the
allocated entry maps to physical cluster 2 and its encoding is not the
hole sentinel. -/
theorem bat_never_references_cluster_zero_witness :
    Ploop.encodeEntry (some 2) = 0 ↔ (some 2 : Option Nat) = none :=
  (bat_never_references_cluster_zero
    [Ploop.allocWrite (Ploop.emptyMeta 1 2) 0]
    (Ploop.MetaReach.step (Ploop.MetaReach.init 1 2)
      (Ploop.MetaStep.alloc (Ploop.emptyMeta 1 2) [] 0))
    (Ploop.allocWrite (Ploop.emptyMeta 1 2) 0)
    (List.mem_cons_self _ _) (some 2) (by decide)).2.2
